import Mathlib

/-!
Verification of the PrimoGPT data merging and filtering notebook.

The notebook (the only component of this repository with original logic)
defines three functions — `load_json_files`, `parse_response`,
`filter_samples` — and a save cell that dumps the loaded samples to a
single JSON file.  This development gives a shallow embedding of those
functions over an explicit JSON value type and proves the specified
properties about them.

Modelling conventions:
* Python exceptions are modelled with `Except PyErr`; the `try/except
  json.JSONDecodeError` inside `parse_response` is modelled by
  `json_loads` returning `Option Json` (`none` = decode error).
* `json.loads` is modelled by a recursive-descent parser over the
  character list of the input.  JSON number literals are modelled as
  integers; fractional and exponent forms (floats), `NaN`/`Infinity`, and
  underscores in `int()` literals are outside the model, as are
  surrogate-pair `\u` escapes.  None of the verified properties involve
  them.
* The input directory is modelled as an ordered list of
  (filename, file content) pairs, matching the spec's "explicit ordered
  list of sources" reading of `os.listdir` iteration order.
-/

/-- JSON values as produced by the modelled `json.loads`.  Objects keep
insertion order and have unique keys, like Python dicts. -/
inductive Json where
  | null : Json
  | bool : Bool → Json
  | num : Int → Json
  | str : String → Json
  | arr : List Json → Json
  | obj : List (String × Json) → Json

/-- Python exceptions that the notebook's code can raise. -/
inductive PyErr where
  | keyError : String → PyErr
  | typeError : PyErr
  | valueError : String → PyErr
  | jsonDecodeError : PyErr
  | attributeError : PyErr
  deriving Repr, DecidableEq

/-- JSON insignificant whitespace (the characters `json.loads` skips). -/
def isWs (c : Char) : Bool :=
  c = ' ' || c = '\t' || c = '\n' || c = '\r'

/-- Drop leading JSON whitespace. -/
def skipWs (cs : List Char) : List Char :=
  cs.dropWhile isWs

/-- Value of a hexadecimal digit. -/
def hexVal (c : Char) : Option Nat :=
  if '0' ≤ c && c ≤ '9' then some (c.toNat - 48)
  else if 'a' ≤ c && c ≤ 'f' then some (c.toNat - 87)
  else if 'A' ≤ c && c ≤ 'F' then some (c.toNat - 55)
  else none

/-- Single-character JSON string escapes. -/
def escChar (c : Char) : Option Char :=
  if c = '"' then some '"'
  else if c = '\\' then some '\\'
  else if c = '/' then some '/'
  else if c = 'b' then some (Char.ofNat 8)
  else if c = 'f' then some (Char.ofNat 12)
  else if c = 'n' then some '\n'
  else if c = 'r' then some '\r'
  else if c = 't' then some '\t'
  else none

/-- Body of a JSON string literal, after the opening quote: returns the
decoded characters and the remaining input after the closing quote.
Unescaped control characters are rejected, as in `json.loads` strict
mode. -/
def parseStrBody : List Char → Option (List Char × List Char)
  | [] => none
  | '"' :: rest => some ([], rest)
  | '\\' :: 'u' :: h1 :: h2 :: h3 :: h4 :: rest =>
    match hexVal h1, hexVal h2, hexVal h3, hexVal h4 with
    | some a, some b, some c, some d =>
      match parseStrBody rest with
      | some (acc, r) => some (Char.ofNat (((a * 16 + b) * 16 + c) * 16 + d) :: acc, r)
      | none => none
    | _, _, _, _ => none
  | '\\' :: e :: rest =>
    if e = 'u' then none
    else
      match escChar e with
      | some ec =>
        match parseStrBody rest with
        | some (acc, r) => some (ec :: acc, r)
        | none => none
      | none => none
  | '\\' :: [] => none
  | c :: rest =>
    if c.toNat < 32 then none
    else
      match parseStrBody rest with
      | some (acc, r) => some (c :: acc, r)
      | none => none

/-- Fold decimal digits into a natural number. -/
def digitsFold (ds : List Char) : Nat :=
  ds.foldl (fun acc c => acc * 10 + (c.toNat - 48)) 0

/-- A JSON natural-number token (no leading zeros).  A following `.`,
`e` or `E` would make it a float literal, which is outside the model and
rejected. -/
def parseNatTok : List Char → Option (Nat × List Char)
  | [] => none
  | c :: rest =>
    if c = '0' then
      match rest with
      | d :: _ =>
        if d.isDigit || d = '.' || d = 'e' || d = 'E' then none else some (0, rest)
      | [] => some (0, [])
    else if c.isDigit then
      let digs := (c :: rest).takeWhile Char.isDigit
      let rest2 := (c :: rest).dropWhile Char.isDigit
      match rest2 with
      | d :: _ =>
        if d = '.' || d = 'e' || d = 'E' then none else some (digitsFold digs, rest2)
      | [] => some (digitsFold digs, [])
    else none

/-- A JSON number token, with optional leading minus. -/
def parseNumTok (cs : List Char) : Option (Json × List Char) :=
  match cs with
  | '-' :: rest =>
    match parseNatTok rest with
    | some (n, rest2) => some (Json.num (-(n : Int)), rest2)
    | none => none
  | _ =>
    match parseNatTok cs with
    | some (n, rest2) => some (Json.num (n : Int), rest2)
    | none => none

/-- Insert a key into a Python-dict-style association list: a duplicate
key overwrites the value in place, keeping the original position. -/
def dictInsert : List (String × Json) → String → Json → List (String × Json)
  | [], k, v => [(k, v)]
  | kv :: rest, k, v =>
    if kv.1 = k then (kv.1, v) :: rest else kv :: dictInsert rest k v

mutual

/-- Parse one JSON value (recursive descent, fuel-bounded). -/
def parseVal : Nat → List Char → Option (Json × List Char)
  | 0, _ => none
  | Nat.succ fuel, cs =>
    match skipWs cs with
    | 'n' :: 'u' :: 'l' :: 'l' :: rest => some (Json.null, rest)
    | 't' :: 'r' :: 'u' :: 'e' :: rest => some (Json.bool true, rest)
    | 'f' :: 'a' :: 'l' :: 's' :: 'e' :: rest => some (Json.bool false, rest)
    | '"' :: rest =>
      match parseStrBody rest with
      | some (chars, rest2) => some (Json.str (String.mk chars), rest2)
      | none => none
    | '[' :: rest =>
      match skipWs rest with
      | ']' :: rest2 => some (Json.arr [], rest2)
      | cs2 =>
        match parseVal fuel cs2 with
        | some (v, rest2) =>
          match parseArrRest fuel rest2 with
          | some (vs, rest3) => some (Json.arr (v :: vs), rest3)
          | none => none
        | none => none
    | '\x7b' :: rest =>
      match skipWs rest with
      | '\x7d' :: rest2 => some (Json.obj [], rest2)
      | cs2 =>
        match parseMembers fuel [] cs2 with
        | some (kvs, rest2) => some (Json.obj kvs, rest2)
        | none => none
    | c :: rest =>
      if c = '-' || c.isDigit then parseNumTok (c :: rest) else none
    | [] => none

/-- After one array element: a comma and further elements, or `]`. -/
def parseArrRest : Nat → List Char → Option (List Json × List Char)
  | 0, _ => none
  | Nat.succ fuel, cs =>
    match skipWs cs with
    | ']' :: rest => some ([], rest)
    | ',' :: rest =>
      match parseVal fuel rest with
      | some (v, rest2) =>
        match parseArrRest fuel rest2 with
        | some (vs, rest3) => some (v :: vs, rest3)
        | none => none
      | none => none
    | _ => none

/-- Object members from the first key onward; `acc` carries the dict
built so far (duplicate keys overwrite, as in Python). -/
def parseMembers : Nat → List (String × Json) → List Char → Option (List (String × Json) × List Char)
  | 0, _, _ => none
  | Nat.succ fuel, acc, cs =>
    match skipWs cs with
    | '"' :: rest =>
      match parseStrBody rest with
      | some (kchars, rest2) =>
        match skipWs rest2 with
        | ':' :: rest3 =>
          match parseVal fuel rest3 with
          | some (v, rest4) =>
            match skipWs rest4 with
            | ',' :: rest5 => parseMembers fuel (dictInsert acc (String.mk kchars) v) rest5
            | '\x7d' :: rest5 => some (dictInsert acc (String.mk kchars) v, rest5)
            | _ => none
          | none => none
        | _ => none
      | none => none
    | _ => none

end

/-- Model of Python's `json.loads`: parse one value, then require only
whitespace to remain (`Extra data` error otherwise).  `none` models a
raised `json.JSONDecodeError`. -/
def json_loads (s : String) : Option Json :=
  match parseVal (2 * s.data.length + 8) s.data with
  | some (j, rest) => if rest.all isWs then some j else none
  | none => none

/-- Hexadecimal digit character for `pyQuote` escapes. -/
def hexDigitChar (n : Nat) : Char :=
  if n < 10 then Char.ofNat (48 + n) else Char.ofNat (87 + n)

/-- Escaping of one character inside Python's `repr` of a string, using
quote character `q`. -/
def pyEscape (q : Char) (c : Char) : List Char :=
  if c = '\\' then ['\\', '\\']
  else if c = q then ['\\', q]
  else if c = '\n' then ['\\', 'n']
  else if c = '\r' then ['\\', 'r']
  else if c = '\t' then ['\\', 't']
  else if c.toNat < 32 || c.toNat = 127 then
    ['\\', 'x', hexDigitChar (c.toNat / 16), hexDigitChar (c.toNat % 16)]
  else [c]

/-- Python's `repr` of a string: single-quoted, unless the string holds
a single quote and no double quote. -/
def pyQuote (s : String) : String :=
  let q := if s.data.contains '\'' && !s.data.contains '"' then '"' else '\''
  String.mk (q :: (s.data.map (pyEscape q)).flatten ++ [q])

mutual

/-- Node count of a JSON value (an executable bound on nesting depth). -/
def jsonSize : Json → Nat
  | Json.null => 1
  | Json.bool _ => 1
  | Json.num _ => 1
  | Json.str _ => 1
  | Json.arr xs => 1 + jsonSizeList xs
  | Json.obj kvs => 1 + jsonSizeKVs kvs

/-- Node count of a list of JSON values. -/
def jsonSizeList : List Json → Nat
  | [] => 0
  | j :: rest => jsonSize j + jsonSizeList rest

/-- Node count of the values of an association list. -/
def jsonSizeKVs : List (String × Json) → Nat
  | [] => 0
  | (_, v) :: rest => jsonSize v + jsonSizeKVs rest

end

/-- Python's `repr` on values decoded from JSON, fuel-bounded on the
nesting depth (any fuel at least `sizeOf j` is enough). -/
def pyReprF : Nat → Json → String
  | 0, _ => ""
  | Nat.succ fuel, j =>
    match j with
    | Json.null => "None"
    | Json.bool true => "True"
    | Json.bool false => "False"
    | Json.num n => toString n
    | Json.str s => pyQuote s
    | Json.arr xs =>
      "[" ++ String.intercalate ", " (xs.map (pyReprF fuel)) ++ "]"
    | Json.obj kvs =>
      "\x7b" ++
        String.intercalate ", "
          (kvs.map (fun kv => pyQuote kv.1 ++ ": " ++ pyReprF fuel kv.2)) ++
        "\x7d"

/-- Python's `repr` on values decoded from JSON.  `jsonSize j` exceeds
the nesting depth, so the fuel never runs out. -/
def pyRepr (j : Json) : String :=
  pyReprF (jsonSize j) j

/-- Python's `str` on values decoded from JSON: a string is itself, all
other values print as their `repr`. -/
def pyStr (j : Json) : String :=
  match j with
  | Json.str s => s
  | j => pyRepr j

/-- Whitespace stripped by Python's `int()` (`str.strip` characters). -/
def isPyWs (c : Char) : Bool :=
  c = ' ' || c = '\t' || c = '\n' || c = '\r' || c = '\x0b' || c = '\x0c'

/-- Digit run accepted by `int()`: nonempty, all decimal digits
(underscore separators are outside the model). -/
def digitsToNat (ds : List Char) : Option Nat :=
  if ds.isEmpty then none
  else if ds.all Char.isDigit then some (digitsFold ds) else none

/-- Model of Python's `int()` on a string: strip whitespace, optional
sign, decimal digits.  `none` models a raised `ValueError`. -/
def pyInt (s : String) : Option Int :=
  let core := (s.data.dropWhile isPyWs).reverse.dropWhile isPyWs |>.reverse
  match core with
  | '+' :: ds => (digitsToNat ds).map (fun n => (n : Int))
  | '-' :: ds => (digitsToNat ds).map (fun n => -(n : Int))
  | ds => (digitsToNat ds).map (fun n => (n : Int))

/-- Does the character list contain a closing brace before any newline?
This is exactly the condition under which `re.search` can close a match
of `\x7b.*\x7d` opened just before this list (`.` does not match a
newline). -/
def lineHasClose : List Char → Bool
  | [] => false
  | c :: rest =>
    if c = '\x7d' then true
    else if c = '\n' then false
    else lineHasClose rest

/-- Greedy tail of a match of `\x7b.*\x7d` starting just after the
opening brace: the longest newline-free position ending with a closing
brace, i.e. everything up to and including the last `\x7d` on the
current line.  `none` when no closing brace remains on the line. -/
def lastClose : List Char → Option (List Char)
  | [] => none
  | c :: rest =>
    if c = '\n' then none
    else
      match lastClose rest with
      | some m => some (c :: m)
      | none => if c = '\x7d' then some ['\x7d'] else none

/-- Model of `re.search(r'\x7b.*\x7d', s).group()`: the leftmost-greedy
match of the pattern, or `none` when the pattern does not occur. -/
def re_search : List Char → Option (List Char)
  | [] => none
  | c :: rest =>
    if c = '\x7b' then
      match lastClose rest with
      | some m => some ('\x7b' :: m)
      | none => re_search rest
    else re_search rest

/-- Does some position of the text open a brace that is closed later on
the same line?  Exactly when `re.search(r'\x7b.*\x7d', ...)` succeeds. -/
def hasInlineBrace : List Char → Bool
  | [] => false
  | c :: rest => (c == '\x7b' && lineHasClose rest) || hasInlineBrace rest

/-- Normalisation applied to one extracted feature value:
`str(v) if v is not None else '0'`. -/
def normVal (v : Json) : String :=
  match v with
  | Json.null => "0"
  | v => pyStr v

/-- The notebook's `parse_response`: search the response text for
`\x7b.*\x7d`, try to decode the match as JSON, and normalise all values
of the decoded object to strings (`None` becomes `"0"`).  A failed
search or a decode error yields `Except.ok none` (the `try/except`
swallows `json.JSONDecodeError`); a match decoding to a non-object would
raise `AttributeError` at `.items()`, which is not caught. -/
def parse_response (response_str : String) : Except PyErr (Option (List (String × String))) :=
  match re_search response_str.data with
  | none => Except.ok none
  | some m =>
    match json_loads (String.mk m) with
    | none => Except.ok none
    | some (Json.obj kvs) =>
      Except.ok (some (kvs.map (fun kv => (kv.1, normVal kv.2))))
    | some _ => Except.error PyErr.attributeError

/-- The generator `any(int(value) != 0 ... for value in response.values())`:
scan the values left to right, raising `ValueError` at the first value
that `int()` cannot parse, and short-circuiting at the first non-zero
integer. -/
def anyNonzero : List String → Except PyErr Bool
  | [] => Except.ok false
  | v :: vs =>
    match pyInt v with
    | none => Except.error (PyErr.valueError v)
    | some n => if n = 0 then anyNonzero vs else Except.ok true

/-- First-match association-list lookup (Python dict subscript). -/
def lookupKey : List (String × Json) → String → Option Json
  | [], _ => none
  | kv :: rest, key => if kv.1 = key then some kv.2 else lookupKey rest key

/-- Python subscript `sample[key]`: `KeyError` on a dict without the
key, `TypeError` on non-dict values. -/
def getItem (sample : Json) (key : String) : Except PyErr Json :=
  match sample with
  | Json.obj kvs =>
    match lookupKey kvs key with
    | some v => Except.ok v
    | none => Except.error (PyErr.keyError key)
  | _ => Except.error PyErr.typeError

/-- The per-sample decision of `filter_samples`:
`response = parse_response(sample['response'])` followed by
`if response and any(int(value) != 0 ... for value in response.values())`.
An empty dict is falsy, so the `any` is not evaluated for it.  A
non-string response field raises `TypeError` inside `re.search`. -/
def evalKeep (sample : Json) : Except PyErr Bool :=
  match getItem sample "response" with
  | Except.error e => Except.error e
  | Except.ok (Json.str r) =>
    match parse_response r with
    | Except.error e => Except.error e
    | Except.ok none => Except.ok false
    | Except.ok (some []) => Except.ok false
    | Except.ok (some (kv :: rest)) => anyNonzero ((kv :: rest).map Prod.snd)
  | Except.ok _ => Except.error PyErr.typeError

/-- The notebook's `filter_samples`: classify each sample in order into
`filtered_data` (retained) or `removed_samples`; the first uncaught
exception aborts the whole loop. -/
def filter_samples : List Json → Except PyErr (List Json × List Json)
  | [] => Except.ok ([], [])
  | sample :: rest =>
    match evalKeep sample with
    | Except.error e => Except.error e
    | Except.ok keep =>
      match filter_samples rest with
      | Except.error e => Except.error e
      | Except.ok (ret, rem) =>
        if keep then Except.ok (sample :: ret, rem) else Except.ok (ret, sample :: rem)

/-- Model of Python's `str.endswith`. -/
def strEndsWith (s suffix : String) : Bool :=
  suffix.data.isSuffixOf s.data

/-- What `data.extend(x)` appends for a decoded JSON value `x`:
a list extends element-wise, a dict extends with its keys, a string
with its one-character substrings; other values are not iterable and
raise `TypeError`. -/
def extendItems : Json → Except PyErr (List Json)
  | Json.arr xs => Except.ok xs
  | Json.obj kvs => Except.ok (kvs.map (fun kv => Json.str kv.1))
  | Json.str s => Except.ok (s.data.map (fun c => Json.str (String.mk [c])))
  | _ => Except.error PyErr.typeError

/-- The notebook's `load_json_files` over a directory modelled as an
ordered list of (filename, content) pairs: for each file whose name ends
in `.json`, decode the content (a decode error propagates) and extend
the accumulated data with it; other files are ignored. -/
def load_json_files : List (String × String) → Except PyErr (List Json)
  | [] => Except.ok []
  | (name, content) :: rest =>
    if strEndsWith name ".json" then
      match json_loads content with
      | none => Except.error PyErr.jsonDecodeError
      | some j =>
        match extendItems j with
        | Except.error e => Except.error e
        | Except.ok items =>
          match load_json_files rest with
          | Except.error e => Except.error e
          | Except.ok more => Except.ok (items ++ more)
    else load_json_files rest

/-- The notebook's save cell: it dumps `all_samples` — the loader's
output — to the output file (`json.dump(all_samples, f, indent=2)`);
`filter_samples` is never invoked on the saved data. -/
def saved_samples (directory : List (String × String)) : Except PyErr (List Json) :=
  load_json_files directory

/-- A minimal sample record whose `response` field is the given text. -/
def mkSample (r : String) : Json :=
  Json.obj [("response", Json.str r)]

/-- Boolean form of the retain decision, defined on samples whose
evaluation succeeds. -/
def keepB (sample : Json) : Bool :=
  match evalKeep sample with
  | Except.ok true => true
  | _ => false

/-- The array a well-formed `.json` file contributes, for stating the
loader's contract. -/
def arrOf (content : String) : List Json :=
  match json_loads content with
  | some (Json.arr xs) => xs
  | _ => []

/-- A successful per-sample evaluation agrees with the boolean decision
`keepB`. -/
theorem evalKeep_eq_keepB (s : Json) (b : Bool) (h : evalKeep s = Except.ok b) :
    keepB s = b := by
  unfold keepB
  rw [h]
  cases b <;> rfl

/-- When `filter_samples` succeeds, the two outputs are exactly the two
complementary filters of the input by the retain decision. -/
theorem filter_samples_eq_filter :
    ∀ (data ret rem : List Json), filter_samples data = Except.ok (ret, rem) →
      ret = data.filter keepB ∧ rem = data.filter (fun s => !keepB s) := by
  intro data
  induction data with
  | nil =>
    intro ret rem h
    simp only [filter_samples] at h
    obtain ⟨h1, h2⟩ := Prod.mk.injEq .. ▸ Except.ok.inj h
    simp [← h1, ← h2]
  | cons s rest ih =>
    intro ret rem h
    unfold filter_samples at h
    cases hk : evalKeep s with
    | error e => rw [hk] at h; exact absurd h (by simp)
    | ok keep =>
      rw [hk] at h
      cases hr : filter_samples rest with
      | error e => rw [hr] at h; exact absurd h (by simp)
      | ok pr =>
        obtain ⟨r2, m2⟩ := pr
        rw [hr] at h
        obtain ⟨ih1, ih2⟩ := ih r2 m2 hr
        have hkb := evalKeep_eq_keepB s keep hk
        cases keep with
        | true =>
          simp only [if_true] at h
          obtain ⟨h1, h2⟩ := Prod.mk.injEq .. ▸ Except.ok.inj h
          subst ih1 ih2
          simp [← h1, ← h2, List.filter_cons, hkb]
        | false =>
          simp only [Bool.false_eq_true, if_false] at h
          obtain ⟨h1, h2⟩ := Prod.mk.injEq .. ▸ Except.ok.inj h
          subst ih1 ih2
          simp [← h1, ← h2, List.filter_cons, hkb]

/-- An uncaught per-sample exception anywhere in the input aborts the
whole of `filter_samples`. -/
theorem filter_samples_error_of_mem :
    ∀ (data : List Json) (s : Json) (e : PyErr), s ∈ data →
      evalKeep s = Except.error e → ∃ e2, filter_samples data = Except.error e2 := by
  intro data
  induction data with
  | nil => intro s e hmem _; exact absurd hmem (by simp)
  | cons t rest ih =>
    intro s e hmem herr
    cases hk : evalKeep t with
    | error e2 => exact ⟨e2, by simp [filter_samples, hk]⟩
    | ok keep =>
      rcases List.mem_cons.mp hmem with heq | hmem2
      · subst heq
        rw [herr] at hk
        exact absurd hk (by simp)
      · obtain ⟨e2, h2⟩ := ih s e hmem2 herr
        exact ⟨e2, by simp [filter_samples, hk, h2]⟩

/-- A successful `any` scan returning `true` found a value with a
non-zero integer reading. -/
theorem anyNonzero_ok_true :
    ∀ vs : List String, anyNonzero vs = Except.ok true →
      ∃ v ∈ vs, ∃ n, pyInt v = some n ∧ n ≠ 0 := by
  intro vs
  induction vs with
  | nil => intro h; exact absurd h (by simp [anyNonzero])
  | cons v rest ih =>
    intro h
    unfold anyNonzero at h
    split at h
    · exact absurd h (by simp)
    · rename_i n heq
      by_cases hn : n = 0
      · rw [if_pos hn] at h
        obtain ⟨w, hw, hnz⟩ := ih h
        exact ⟨w, List.mem_cons_of_mem v hw, hnz⟩
      · exact ⟨v, List.mem_cons_self .., n, heq, hn⟩

/-- A successful `any` scan returning `false` read every value as the
integer zero. -/
theorem anyNonzero_ok_false :
    ∀ vs : List String, anyNonzero vs = Except.ok false →
      ∀ v ∈ vs, pyInt v = some 0 := by
  intro vs
  induction vs with
  | nil => intro _ v hv; exact absurd hv (by simp)
  | cons u rest ih =>
    intro h v hv
    unfold anyNonzero at h
    split at h
    · exact absurd h (by simp)
    · rename_i n hu
      by_cases hn : n = 0
      · rw [if_pos hn] at h
        rcases List.mem_cons.mp hv with heq | hmem
        · subst heq; rw [hu, hn]
        · exact ih h v hmem
      · rw [if_neg hn] at h
        exact absurd h (by simp)

/-- The `any` scan raises `ValueError` at the first unparsable value
when every value before it reads as zero. -/
theorem anyNonzero_error_at :
    ∀ (vs1 : List String) (v : String) (vs2 : List String),
      (∀ u ∈ vs1, pyInt u = some 0) → pyInt v = none →
      anyNonzero (vs1 ++ v :: vs2) = Except.error (PyErr.valueError v) := by
  intro vs1
  induction vs1 with
  | nil =>
    intro v vs2 _ hv
    simp only [List.nil_append]
    unfold anyNonzero
    rw [hv]
  | cons u rest ih =>
    intro v vs2 hall hv
    have hu : pyInt u = some 0 := hall u (List.mem_cons_self ..)
    simp only [List.cons_append]
    unfold anyNonzero
    rw [hu]
    simp only [if_pos rfl]
    exact ih v vs2 (fun w hw => hall w (List.mem_cons_of_mem u hw)) hv

/-- No greedy tail exists exactly when no closing brace remains on the
current line. -/
theorem lastClose_none_iff :
    ∀ cs : List Char, lastClose cs = none ↔ lineHasClose cs = false := by
  intro cs
  induction cs with
  | nil => simp [lastClose, lineHasClose]
  | cons c rest ih =>
    unfold lastClose lineHasClose
    by_cases hcn : c = '\n'
    · subst hcn
      simp
    · by_cases hcb : c = '\x7d'
      · subst hcb
        simp only [if_neg (by decide : ¬('\x7d' = '\n')), if_pos rfl]
        cases h : lastClose rest <;> simp [h]
      · simp only [if_neg hcn, if_neg hcb]
        cases h : lastClose rest with
        | some m =>
          have ih2 : lineHasClose rest = true := by
            cases hlc : lineHasClose rest
            · exact absurd (ih.mpr hlc) (by simp [h])
            · rfl
          simp [h, ih2]
        | none =>
          simp [h]
          exact ih.mp h

/-- Structure of the greedy tail: it runs up to and including the last
closing brace on the current line; no newline occurs inside it and no
further closing brace remains on the line after it. -/
theorem lastClose_some_spec :
    ∀ (cs m : List Char), lastClose cs = some m →
      ∃ mid suf, m = mid ++ ['\x7d'] ∧ cs = mid ++ '\x7d' :: suf ∧
        '\n' ∉ mid ∧ lineHasClose suf = false := by
  intro cs
  induction cs with
  | nil => intro m h; exact absurd h (by simp [lastClose])
  | cons c rest ih =>
    intro m h
    unfold lastClose at h
    by_cases hcn : c = '\n'
    · rw [if_pos hcn] at h; exact absurd h (by simp)
    · rw [if_neg hcn] at h
      cases h2 : lastClose rest with
      | some m2 =>
        rw [h2] at h
        obtain ⟨mid2, suf2, hm2, hrest, hnl, hlc⟩ := ih m2 h2
        refine ⟨c :: mid2, suf2, ?_, ?_, ?_, hlc⟩
        · rw [← Option.some.inj h, hm2]; rfl
        · rw [hrest]; rfl
        · intro hmem
          rcases List.mem_cons.mp hmem with he | hm
          · exact hcn he.symm
          · exact hnl hm
      | none =>
        rw [h2] at h
        by_cases hcb : c = '\x7d'
        · rw [if_pos hcb] at h
          refine ⟨[], rest, (Option.some.inj h).symm, by rw [hcb]; rfl, by simp, ?_⟩
          exact (lastClose_none_iff rest).mp h2
        · rw [if_neg hcb] at h
          exact absurd h (by simp)

/-- The search fails exactly when no line of the text opens a brace that
closes on the same line. -/
theorem re_search_none_iff :
    ∀ s : List Char, re_search s = none ↔ hasInlineBrace s = false := by
  intro s
  induction s with
  | nil => simp [re_search, hasInlineBrace]
  | cons c rest ih =>
    unfold re_search hasInlineBrace
    by_cases hc : c = '\x7b'
    · subst hc
      simp only [if_pos rfl, beq_self_eq_true, Bool.true_and]
      cases h2 : lastClose rest with
      | some m =>
        have := (lastClose_none_iff rest).not
        simp only [h2] at this
        simp only [Bool.or_eq_false_iff]
        constructor
        · intro h; exact absurd h (by simp)
        · intro h
          have : lineHasClose rest ≠ false := by
            intro hf
            exact absurd ((lastClose_none_iff rest).mpr hf) (by simp [h2])
          exact absurd h.1 this
      | none =>
        have hlc : lineHasClose rest = false := (lastClose_none_iff rest).mp h2
        simp [hlc, ih]
    · rw [if_neg hc]
      have : (c == '\x7b') = false := by
        simp only [beq_eq_false_iff_ne, ne_eq]; exact hc
      simp [this, ih]

/-- Leftmost-greedy structure of the search: whenever some opening brace
closes on its own line, the match starts at the first such opening brace
(every earlier opening brace has no closing brace on its line), spans no
newline, and extends to the last closing brace on the opening brace's
line. -/
theorem re_search_found :
    ∀ s : List Char, hasInlineBrace s = true →
      ∃ pre mid suf, s = pre ++ '\x7b' :: (mid ++ '\x7d' :: suf) ∧
        re_search s = some ('\x7b' :: (mid ++ ['\x7d'])) ∧
        '\n' ∉ mid ∧ lineHasClose suf = false ∧
        ∀ p q, pre = p ++ '\x7b' :: q →
          lineHasClose (q ++ '\x7b' :: (mid ++ '\x7d' :: suf)) = false := by
  intro s
  induction s with
  | nil => intro h; exact absurd h (by simp [hasInlineBrace])
  | cons c rest ih =>
    intro h
    by_cases hc : c = '\x7b'
    · subst hc
      cases h2 : lastClose rest with
      | some m =>
        obtain ⟨mid, suf, hm, hrest, hnl, hlc⟩ := lastClose_some_spec rest m h2
        refine ⟨[], mid, suf, ?_, ?_, hnl, hlc, ?_⟩
        · rw [hrest]; rfl
        · unfold re_search
          simp only [if_pos rfl, h2]
          rw [hm]
          simp
        · intro p q hp
          exact absurd hp.symm (by simp)
      | none =>
        have hlc0 : lineHasClose rest = false := (lastClose_none_iff rest).mp h2
        have h3 : hasInlineBrace rest = true := by
          unfold hasInlineBrace at h
          simpa [hlc0] using h
        obtain ⟨pre2, mid, suf, hrest, hre, hnl, hlc, hcond⟩ := ih h3
        refine ⟨'\x7b' :: pre2, mid, suf, by rw [hrest]; rfl, ?_, hnl, hlc, ?_⟩
        · unfold re_search
          simp only [if_pos rfl, h2]
          exact hre
        · intro p q hp
          cases p with
          | nil =>
            injection hp with h1x h2x
            rw [← h2x, ← hrest]
            exact hlc0
          | cons pc p2 =>
            injection hp with h1x h2x
            exact hcond p2 q h2x
    · have h3 : hasInlineBrace rest = true := by
        unfold hasInlineBrace at h
        have hcb : (c == '\x7b') = false := by simp [hc]
        simpa [hcb] using h
      obtain ⟨pre2, mid, suf, hrest, hre, hnl, hlc, hcond⟩ := ih h3
      refine ⟨c :: pre2, mid, suf, by rw [hrest]; rfl, ?_, hnl, hlc, ?_⟩
      · unfold re_search
        rw [if_neg hc]
        exact hre
      · intro p q hp
        cases p with
        | nil =>
          injection hp with h1x h2x
          exact absurd h1x hc
        | cons pc p2 =>
          injection hp with h1x h2x
          exact hcond p2 q h2x

/-- `evalKeep` on a minimal sample is driven entirely by
`parse_response` on its response text. -/
theorem evalKeep_mkSample (r : String) :
    evalKeep (mkSample r) =
      match parse_response r with
      | Except.error e => Except.error e
      | Except.ok none => Except.ok false
      | Except.ok (some []) => Except.ok false
      | Except.ok (some (kv :: rest)) => anyNonzero ((kv :: rest).map Prod.snd) :=
  rfl

/-- A sample whose response yields no feature map is routed to the
removed set. -/
theorem removed_of_parse_none (r : String) (h : parse_response r = Except.ok none) :
    filter_samples [mkSample r] = Except.ok ([], [mkSample r]) := by
  have he : evalKeep (mkSample r) = Except.ok false := by
    rw [evalKeep_mkSample, h]
  simp [filter_samples, he]

/-- Claim C1 (code bug evidence): the save cell dumps the loader's
output, not the filter's retained partition.  On a directory holding one
sample whose features are all zero, the saved array still contains that
sample, although `filter_samples` classifies it as removed — so the
persisted file does not equal the retained sequence, and the non-zero
Feature Map invariant fails for it. -/
theorem C1_saved_output_not_filtered :
    saved_samples [("one.json", "[\x7b\"response\": \"\x7b\\\"a\\\": 0\x7d\"\x7d]")] =
      Except.ok [Json.obj [("response", Json.str "\x7b\"a\": 0\x7d")]] ∧
    filter_samples [Json.obj [("response", Json.str "\x7b\"a\": 0\x7d")]] =
      Except.ok ([], [Json.obj [("response", Json.str "\x7b\"a\": 0\x7d")]]) :=
  ⟨rfl, rfl⟩

/-- Claim C2: whenever `filter_samples` terminates without error, the
retained and removed sequences partition the input — together they are a
permutation (multiset equality) of the input, no sample value appears in
both, and each is a sublist of the input (relative order preserved). -/
theorem C2_filter_partitions_input :
    ∀ (data ret rem : List Json), filter_samples data = Except.ok (ret, rem) →
      List.Perm (ret ++ rem) data ∧ (∀ s, s ∈ ret → s ∉ rem) ∧
        List.Sublist ret data ∧ List.Sublist rem data := by
  intro data ret rem h
  obtain ⟨h1, h2⟩ := filter_samples_eq_filter data ret rem h
  subst h1
  subst h2
  refine ⟨List.filter_append_perm _ _, ?_, List.filter_sublist _, List.filter_sublist _⟩
  intro s hsr hsm
  have h3 := List.of_mem_filter hsr
  have h4 := List.of_mem_filter hsm
  rw [h3] at h4
  exact absurd h4 (by simp)

/-- Claim C2 witness: a concrete two-sample run, one retained and one
removed. -/
theorem C2_witness :
    List.Perm ([mkSample "x \x7b\"a\": 1\x7d"] ++ [mkSample "no braces here"])
        [mkSample "x \x7b\"a\": 1\x7d", mkSample "no braces here"] ∧
      (∀ s, s ∈ [mkSample "x \x7b\"a\": 1\x7d"] → s ∉ [mkSample "no braces here"]) ∧
      List.Sublist [mkSample "x \x7b\"a\": 1\x7d"]
        [mkSample "x \x7b\"a\": 1\x7d", mkSample "no braces here"] ∧
      List.Sublist [mkSample "no braces here"]
        [mkSample "x \x7b\"a\": 1\x7d", mkSample "no braces here"] :=
  C2_filter_partitions_input
    [mkSample "x \x7b\"a\": 1\x7d", mkSample "no braces here"]
    [mkSample "x \x7b\"a\": 1\x7d"] [mkSample "no braces here"] (by rfl)

/-- Claim C3: extraction failure is recovered, never an error — when the
search finds no match, or the match is not decodable JSON, the result is
the no-features value `none` (no exception), and the sample is routed to
the removed set. -/
theorem C3_extraction_failure_recovered :
    ∀ r : String,
      (re_search r.data = none ∨
        ∃ m, re_search r.data = some m ∧ json_loads (String.mk m) = none) →
      parse_response r = Except.ok none ∧
        filter_samples [mkSample r] = Except.ok ([], [mkSample r]) := by
  intro r h
  have hp : parse_response r = Except.ok none := by
    unfold parse_response
    rcases h with hn | ⟨m, hm, hj⟩
    · rw [hn]
    · simp [hm, hj]
  exact ⟨hp, removed_of_parse_none r hp⟩

/-- Claim C3 witness: one response with no brace pair at all, and one
whose matched substring is malformed JSON. -/
theorem C3_witness :
    (parse_response "no braces at all" = Except.ok none ∧
      filter_samples [mkSample "no braces at all"] =
        Except.ok ([], [mkSample "no braces at all"])) ∧
    (parse_response "x \x7b\"a\": not-json\x7d y" = Except.ok none ∧
      filter_samples [mkSample "x \x7b\"a\": not-json\x7d y"] =
        Except.ok ([], [mkSample "x \x7b\"a\": not-json\x7d y"])) :=
  ⟨C3_extraction_failure_recovered "no braces at all" (Or.inl rfl),
   C3_extraction_failure_recovered "x \x7b\"a\": not-json\x7d y"
     (Or.inr ⟨"\x7b\"a\": not-json\x7d".data, rfl, rfl⟩)⟩

/-- Claim C4: when the matched substring decodes to a JSON object, the
result keeps exactly the object's keys, every value becomes its string
form, and a null value becomes the literal string "0". -/
theorem C4_feature_normalisation :
    ∀ (r : String) (m : List Char) (kvs : List (String × Json)),
      re_search r.data = some m → json_loads (String.mk m) = some (Json.obj kvs) →
      parse_response r = Except.ok (some (kvs.map (fun kv => (kv.1, normVal kv.2)))) ∧
        (kvs.map (fun kv => (kv.1, normVal kv.2))).map Prod.fst = kvs.map Prod.fst ∧
        ∀ kv ∈ kvs, (kv.2 = Json.null → normVal kv.2 = "0") ∧
          (kv.2 ≠ Json.null → normVal kv.2 = pyStr kv.2) := by
  intro r m kvs hm hj
  refine ⟨?_, ?_, ?_⟩
  · unfold parse_response
    simp [hm, hj]
  · simp [List.map_map]
  · intro kv _
    constructor
    · intro h
      rw [h]
      rfl
    · intro h
      cases hv : kv.2 with
      | null => exact absurd hv h
      | bool b => rfl
      | num n => rfl
      | str s => rfl
      | arr xs => rfl
      | obj kvs2 => rfl

/-- Claim C4 witness: a response embedding an object with a numeric and
a null value. -/
theorem C4_witness :
    parse_response "text \x7b\"a\": 2, \"b\": null\x7d tail" =
      Except.ok (some [("a", "2"), ("b", "0")]) :=
  (C4_feature_normalisation "text \x7b\"a\": 2, \"b\": null\x7d tail"
    "\x7b\"a\": 2, \"b\": null\x7d".data
    [("a", Json.num 2), ("b", Json.null)] rfl rfl).1

/-- Claim C5: a (classified) sample is retained exactly when its feature
map exists and at least one feature value reads as a non-zero integer. -/
theorem C5_decision_rule :
    ∀ (r : String) (ret rem : List Json),
      filter_samples [mkSample r] = Except.ok (ret, rem) →
      ((ret = [mkSample r] ∧ rem = []) ↔
        ∃ fm, parse_response r = Except.ok (some fm) ∧
          ∃ kv ∈ fm, ∃ n, pyInt kv.2 = some n ∧ n ≠ 0) := by
  intro r ret rem h
  have he := evalKeep_mkSample r
  cases hk : evalKeep (mkSample r) with
  | error e =>
    have hfe : filter_samples [mkSample r] = Except.error e := by
      simp [filter_samples, hk]
    rw [hfe] at h
    exact absurd h (by simp)
  | ok keep =>
    have hfs : filter_samples [mkSample r] =
        (if keep then Except.ok ([mkSample r], []) else Except.ok ([], [mkSample r])) := by
      simp [filter_samples, hk]
    rw [hfs] at h
    rw [he] at hk
    cases keep with
    | true =>
      simp only [if_true] at h
      obtain ⟨h1, h2⟩ := Prod.mk.injEq .. ▸ Except.ok.inj h
      constructor
      · intro _
        cases hp : parse_response r with
        | error e => rw [hp] at hk; exact absurd hk (by simp)
        | ok fmo =>
          rw [hp] at hk
          cases fmo with
          | none => exact absurd hk (by simp)
          | some fm =>
            cases fm with
            | nil => exact absurd hk (by simp)
            | cons kv rest =>
              obtain ⟨v, hv, n, hpi, hnz⟩ := anyNonzero_ok_true _ hk
              obtain ⟨a, ha, hav⟩ := List.mem_map.mp hv
              exact ⟨kv :: rest, rfl, a, ha, n, by rw [hav]; exact hpi, hnz⟩
      · intro _
        exact ⟨h1.symm, h2.symm⟩
    | false =>
      simp only [Bool.false_eq_true, if_false] at h
      obtain ⟨h1, h2⟩ := Prod.mk.injEq .. ▸ Except.ok.inj h
      constructor
      · intro hret
        exact absurd (h1.trans hret.1) (by simp)
      · intro hrhs
        exfalso
        obtain ⟨fm, hpf, kv2, hmem, n, hpi, hnz⟩ := hrhs
        rw [hpf] at hk
        cases fm with
        | nil => exact absurd hmem (by simp)
        | cons kv rest =>
          have hz := anyNonzero_ok_false _ hk kv2.2 (List.mem_map_of_mem Prod.snd hmem)
          rw [hpi] at hz
          exact hnz (Option.some.inj hz)

/-- Claim C5 witness: the sample embedding an object with values 1 and 0
is retained (via the decision rule), and the sample embedding an object
with values 0, "0" and null is removed. -/
theorem C5_witness :
    (∃ fm, parse_response "text \x7b\"a\": 1, \"b\": 0\x7d" = Except.ok (some fm) ∧
      ∃ kv ∈ fm, ∃ n, pyInt kv.2 = some n ∧ n ≠ 0) ∧
    filter_samples [mkSample "text \x7b\"a\": 0, \"b\": \"0\", \"c\": null\x7d"] =
      Except.ok ([], [mkSample "text \x7b\"a\": 0, \"b\": \"0\", \"c\": null\x7d"]) :=
  ⟨(C5_decision_rule "text \x7b\"a\": 1, \"b\": 0\x7d"
      [mkSample "text \x7b\"a\": 1, \"b\": 0\x7d"] [] (by rfl)).mp ⟨rfl, rfl⟩,
   by rfl⟩

/-- Claim C6 counterexample: a sample whose feature map holds the
non-integer value "high" after the non-zero value 1 does NOT make
`filter_samples` raise — the `any` generator short-circuits at the first
non-zero value, and the sample is retained. -/
theorem C6_counterexample :
    parse_response "\x7b\"a\": 1, \"b\": \"high\"\x7d" =
      Except.ok (some [("a", "1"), ("b", "high")]) ∧
    pyInt "high" = none ∧
    filter_samples [mkSample "\x7b\"a\": 1, \"b\": \"high\"\x7d"] =
      Except.ok ([mkSample "\x7b\"a\": 1, \"b\": \"high\"\x7d"], []) :=
  ⟨rfl, rfl, rfl⟩

/-- Claim C6 (amended): a non-integer feature value is fatal when the
scan actually reaches it — that is, when every value before it in the
feature map reads as zero; the whole run then produces no partition. -/
theorem C6_amended_coercion_failure_fatal :
    ∀ (data : List Json) (sample : Json) (r : String) (fm : List (String × String))
      (vs1 : List String) (v : String) (vs2 : List String),
      sample ∈ data → getItem sample "response" = Except.ok (Json.str r) →
      parse_response r = Except.ok (some fm) →
      fm.map Prod.snd = vs1 ++ v :: vs2 →
      (∀ u ∈ vs1, pyInt u = some 0) → pyInt v = none →
      ∃ e, filter_samples data = Except.error e := by
  intro data sample r fm vs1 v vs2 hmem hget hp hmap hall hv
  cases fm with
  | nil => exact absurd hmap.symm (by simp)
  | cons kv rest =>
    have hak : anyNonzero ((kv :: rest).map Prod.snd) = Except.error (PyErr.valueError v) := by
      rw [hmap]
      exact anyNonzero_error_at vs1 v vs2 hall hv
    have hek : evalKeep sample = Except.error (PyErr.valueError v) := by
      simp only [evalKeep, hget, hp]
      exact hak
    exact filter_samples_error_of_mem data sample _ hmem hek

/-- Claim C6 amended witness: the value "high" preceded only by a zero
aborts the run. -/
theorem C6_amended_witness :
    ∃ e, filter_samples [mkSample "\x7b\"a\": 0, \"b\": \"high\"\x7d"] = Except.error e :=
  C6_amended_coercion_failure_fatal [mkSample "\x7b\"a\": 0, \"b\": \"high\"\x7d"]
    (mkSample "\x7b\"a\": 0, \"b\": \"high\"\x7d") "\x7b\"a\": 0, \"b\": \"high\"\x7d"
    [("a", "0"), ("b", "high")] ["0"] "high" []
    (List.mem_singleton.mpr rfl) rfl rfl rfl (by decide) rfl

/-- Claim C7: the loader reads exactly the files named `*.json`; when
all of them decode to arrays it returns their concatenation in
file-iteration order, and a decode failure in any of them aborts the
whole load (no file is skipped or quarantined). -/
theorem C7_loader_contract :
    ∀ directory : List (String × String),
      ((∀ p ∈ directory, strEndsWith p.1 ".json" = true →
          ∃ xs, json_loads p.2 = some (Json.arr xs)) →
        load_json_files directory =
          Except.ok (((directory.filter (fun p => strEndsWith p.1 ".json")).map
            (fun p => arrOf p.2)).flatten)) ∧
      (∀ p ∈ directory, strEndsWith p.1 ".json" = true → json_loads p.2 = none →
        ∃ e, load_json_files directory = Except.error e) := by
  intro directory
  induction directory with
  | nil =>
    constructor
    · intro _; rfl
    · intro p hp; exact absurd hp (by simp)
  | cons f rest ih =>
    obtain ⟨f1, f2⟩ := f
    constructor
    · intro hall
      have hrest := ih.1 (fun p hp hpe => hall p (List.mem_cons_of_mem _ hp) hpe)
      by_cases hj : strEndsWith f1 ".json" = true
      · obtain ⟨xs, hxs⟩ := hall (f1, f2) (List.mem_cons_self ..) hj
        unfold load_json_files
        rw [if_pos hj]
        simp only [hxs, extendItems]
        rw [hrest]
        simp [List.filter_cons, hj, arrOf, hxs]
      · unfold load_json_files
        rw [if_neg hj]
        rw [hrest]
        simp [List.filter_cons, hj]
    · intro p hp hpe hpn
      rcases List.mem_cons.mp hp with heq | hmem
      · subst heq
        have hpe2 : strEndsWith f1 ".json" = true := hpe
        have hpn2 : json_loads f2 = none := hpn
        refine ⟨PyErr.jsonDecodeError, ?_⟩
        unfold load_json_files
        rw [if_pos hpe2]
        simp [hpn2]
      · obtain ⟨e, herr⟩ := ih.2 p hmem hpe hpn
        by_cases hj : strEndsWith f1 ".json" = true
        · cases hjl : json_loads f2 with
          | none =>
            exact ⟨PyErr.jsonDecodeError, by unfold load_json_files; rw [if_pos hj]; simp [hjl]⟩
          | some j =>
            cases hext : extendItems j with
            | error e2 =>
              exact ⟨e2, by unfold load_json_files; rw [if_pos hj]; simp [hjl, hext]⟩
            | ok items =>
              exact ⟨e, by unfold load_json_files; rw [if_pos hj]; simp [hjl, hext, herr]⟩
        · exact ⟨e, by unfold load_json_files; rw [if_neg hj]; exact herr⟩

/-- Claim C7 witness: a directory whose two `.json` files decode to
arrays (the `.txt` file is ignored), and a directory holding one
malformed `.json` file. -/
theorem C7_witness :
    load_json_files [("a.json", "[1, 2]"), ("notes.txt", "ignored"), ("b.json", "[3]")] =
      Except.ok [Json.num 1, Json.num 2, Json.num 3] ∧
    (∃ e, load_json_files [("bad.json", "not json")] = Except.error e) :=
  ⟨(C7_loader_contract [("a.json", "[1, 2]"), ("notes.txt", "ignored"), ("b.json", "[3]")]).1
      (by
        intro p hp he
        rcases List.mem_cons.mp hp with h1 | hp2
        · subst h1; exact ⟨[Json.num 1, Json.num 2], rfl⟩
        rcases List.mem_cons.mp hp2 with h2 | hp3
        · subst h2; exact absurd he (by decide)
        rcases List.mem_cons.mp hp3 with h3 | hp4
        · subst h3; exact ⟨[Json.num 3], rfl⟩
        · exact absurd hp4 (by simp)),
   (C7_loader_contract [("bad.json", "not json")]).2 ("bad.json", "not json")
      (List.mem_singleton.mpr rfl) (by decide) rfl⟩

/-- Claim C8: whenever the response text has an opening brace closed on
the same line, the extractor's match is the leftmost-greedy match of the
pattern — it starts at the first opening brace from which the pattern
can close (no earlier opening brace closes on its line), contains no
newline, and runs to the last closing brace on that line, spanning any
further brace regions on the line. -/
theorem C8_greedy_leftmost_match :
    ∀ r : String, hasInlineBrace r.data = true →
      ∃ pre mid suf, r.data = pre ++ '\x7b' :: (mid ++ '\x7d' :: suf) ∧
        re_search r.data = some ('\x7b' :: (mid ++ ['\x7d'])) ∧
        '\n' ∉ mid ∧ lineHasClose suf = false ∧
        ∀ p q, pre = p ++ '\x7b' :: q →
          lineHasClose (q ++ '\x7b' :: (mid ++ '\x7d' :: suf)) = false :=
  fun r => re_search_found r.data

/-- Claim C8 witness: with two brace regions on one line, the match
spans from the first opening brace to the last closing brace. -/
theorem C8_witness :
    (∃ pre mid suf,
        ("a \x7b\"x\": 1\x7d b \x7b\"y\": 2\x7d c" : String).data =
          pre ++ '\x7b' :: (mid ++ '\x7d' :: suf) ∧
        re_search ("a \x7b\"x\": 1\x7d b \x7b\"y\": 2\x7d c" : String).data =
          some ('\x7b' :: (mid ++ ['\x7d'])) ∧
        '\n' ∉ mid ∧ lineHasClose suf = false ∧
        ∀ p q, pre = p ++ '\x7b' :: q →
          lineHasClose (q ++ '\x7b' :: (mid ++ '\x7d' :: suf)) = false) ∧
    re_search ("a \x7b\"x\": 1\x7d b \x7b\"y\": 2\x7d c" : String).data =
      some ("\x7b\"x\": 1\x7d b \x7b\"y\": 2\x7d" : String).data :=
  ⟨C8_greedy_leftmost_match "a \x7b\"x\": 1\x7d b \x7b\"y\": 2\x7d c" (by decide), by rfl⟩

/-- Claim C9: the pattern cannot cross line breaks — when no opening
brace is closed on its own line, the search fails, the parse yields the
no-features value, and the sample is removed. -/
theorem C9_pattern_stops_at_newlines :
    ∀ r : String, hasInlineBrace r.data = false →
      parse_response r = Except.ok none ∧
        filter_samples [mkSample r] = Except.ok ([], [mkSample r]) := by
  intro r h
  have hp : parse_response r = Except.ok none := by
    unfold parse_response
    rw [(re_search_none_iff r.data).mpr h]
  exact ⟨hp, removed_of_parse_none r hp⟩

/-- Claim C9 witness: a pretty-printed object spread over three lines is
removed although the whole response decodes as a valid JSON object. -/
theorem C9_witness :
    (parse_response "\x7b\n  \"a\": 1\n\x7d" = Except.ok none ∧
      filter_samples [mkSample "\x7b\n  \"a\": 1\n\x7d"] =
        Except.ok ([], [mkSample "\x7b\n  \"a\": 1\n\x7d"])) ∧
    json_loads "\x7b\n  \"a\": 1\n\x7d" = some (Json.obj [("a", Json.num 1)]) :=
  ⟨C9_pattern_stops_at_newlines "\x7b\n  \"a\": 1\n\x7d" (by decide), rfl⟩

/-- Claim C10: a sample record without a "response" key raises
`KeyError` when reached, and an input containing such a record never
produces a partition. -/
theorem C10_missing_response_fatal :
    ∀ (data : List Json) (kvs : List (String × Json)),
      Json.obj kvs ∈ data → lookupKey kvs "response" = none →
      evalKeep (Json.obj kvs) = Except.error (PyErr.keyError "response") ∧
        ∃ e, filter_samples data = Except.error e := by
  intro data kvs hmem hlk
  have hek : evalKeep (Json.obj kvs) = Except.error (PyErr.keyError "response") := by
    simp [evalKeep, getItem, hlk]
  exact ⟨hek, filter_samples_error_of_mem data (Json.obj kvs) _ hmem hek⟩

/-- Claim C10 witness: a record with only an "instruction" field. -/
theorem C10_witness :
    evalKeep (Json.obj [("instruction", Json.str "do")]) =
      Except.error (PyErr.keyError "response") ∧
    ∃ e, filter_samples [Json.obj [("instruction", Json.str "do")]] = Except.error e :=
  C10_missing_response_fatal [Json.obj [("instruction", Json.str "do")]]
    [("instruction", Json.str "do")] (List.mem_singleton.mpr rfl) rfl
